import Mathlib

/-!
Verification of the one-sample z-test notebook (`src/index.ipynb`).

The notebook's executable content is four expressions on hard-coded scalars:

* cell 1: `x_bar = 103; n = 40; sigma = 16; mu = 100;
  z = (x_bar - mu)/(sigma/sqrt(n))`
* cell 3: two `plt.fill_between` calls shading the standard normal density
  over `np.arange(-4, 1.19, 0.01)` and `np.arange(1.19, 4, 0.01)`
* cell 5: `stats.norm.cdf(z)`
* cell 7: `pval = 1 - stats.norm.cdf(z)`

Numbers are embedded as real numbers.  The arithmetic expression for `z` is
additionally embedded with Python's evaluation semantics (`math.sqrt` raises
on a negative argument, `/` raises on a zero divisor) via `Except`.  The
standard normal CDF comes from `scipy.stats`, whose implementation is not
part of this repository; it is modelled from the spec as the integral of the
standard normal density.
-/

open Real MeasureTheory Set

namespace OneSampleZTest

/-- Cell 1: `x_bar = 103`, the sample mean. -/
def x_bar : ℝ := 103

/-- Cell 1: `n = 40`, the number of students (used as a real scalar in the
formula). -/
def n : ℝ := 40

/-- Cell 1: `sigma = 16`, the population standard deviation. -/
def sigma : ℝ := 16

/-- Cell 1: `mu = 100`, the population mean. -/
def mu : ℝ := 100

/-- Cell 1: `z = (x_bar - mu)/(sigma/sqrt(n))`. -/
noncomputable def z : ℝ := (x_bar - mu) / (sigma / Real.sqrt n)

/-- Python's `math.sqrt` on reals: raises `ValueError` (math domain error) on
a negative argument, otherwise returns the square root. -/
noncomputable def pySqrt (x : ℝ) : Except String ℝ :=
  if x < 0 then Except.error ("math domain error") else Except.ok (Real.sqrt x)

/-- Python's `/` on reals: raises `ZeroDivisionError` when the divisor is
zero, otherwise returns the quotient. -/
noncomputable def pyDiv (a b : ℝ) : Except String ℝ :=
  if b = 0 then Except.error ("float division by zero") else Except.ok (a / b)

/-- Cell 1's expression `(x_bar - mu)/(sigma/sqrt(n))` evaluated with Python
error semantics, as a function of the four assigned scalars. -/
noncomputable def zEval (xb m sg nn : ℝ) : Except String ℝ :=
  match pySqrt nn with
  | Except.error e => Except.error e
  | Except.ok s =>
    match pyDiv sg s with
    | Except.error e => Except.error e
    | Except.ok se => pyDiv (xb - m) se

lemma pySqrt_of_nonneg {x : ℝ} (h : 0 ≤ x) :
    pySqrt x = Except.ok (Real.sqrt x) := by
  unfold pySqrt
  rw [if_neg (not_lt.mpr h)]

lemma pySqrt_of_neg {x : ℝ} (h : x < 0) :
    pySqrt x = Except.error ("math domain error") := by
  unfold pySqrt
  rw [if_pos h]

lemma pyDiv_of_ne {a b : ℝ} (h : b ≠ 0) : pyDiv a b = Except.ok (a / b) := by
  unfold pyDiv
  rw [if_neg h]

lemma pyDiv_of_eq {a b : ℝ} (h : b = 0) :
    pyDiv a b = Except.error ("float division by zero") := by
  unfold pyDiv
  rw [if_pos h]

/-- On a positive sample size and a nonzero standard deviation, the Python
evaluation of cell 1's expression succeeds and returns the formula's value. -/
lemma zEval_ok {xb m sg nn : ℝ} (hn : 0 < nn) (hs : sg ≠ 0) :
    zEval xb m sg nn = Except.ok ((xb - m) / (sg / Real.sqrt nn)) := by
  have hsq : Real.sqrt nn ≠ 0 := ne_of_gt (Real.sqrt_pos.mpr hn)
  unfold zEval
  rw [pySqrt_of_nonneg hn.le]
  dsimp only
  rw [pyDiv_of_ne hsq]
  dsimp only
  rw [pyDiv_of_ne (div_ne_zero hs hsq)]

/-- On a zero standard deviation or a nonpositive sample size, the Python
evaluation of cell 1's expression raises. -/
lemma zEval_error {xb m sg nn : ℝ} (h : sg = 0 ∨ nn ≤ 0) :
    ∃ e, zEval xb m sg nn = Except.error e := by
  rcases lt_or_le nn 0 with hn | hn
  · refine ⟨"math domain error", ?_⟩
    unfold zEval
    rw [pySqrt_of_neg hn]
  · rcases eq_or_lt_of_le hn with hn0 | hnpos
    · refine ⟨"float division by zero", ?_⟩
      unfold zEval
      rw [pySqrt_of_nonneg hn, ← hn0, Real.sqrt_zero]
      dsimp only
      rw [pyDiv_of_eq rfl]
    · rcases h with hs | hn'
      · have hsq : Real.sqrt nn ≠ 0 := ne_of_gt (Real.sqrt_pos.mpr hnpos)
        refine ⟨"float division by zero", ?_⟩
        unfold zEval
        rw [pySqrt_of_nonneg hn]
        dsimp only
        rw [pyDiv_of_ne hsq]
        dsimp only
        rw [hs, zero_div, pyDiv_of_eq rfl]
      · exact absurd hn' (not_le.mpr hnpos)

/-- Modelled from the spec: the standard normal probability density
`(1/√(2π)) · exp(-x²/2)` underlying `scipy.stats.norm`, whose implementation
is not part of this repository. -/
noncomputable def normPdf (x : ℝ) : ℝ :=
  (Real.sqrt (2 * π))⁻¹ * Real.exp (-x ^ 2 / 2)

/-- Modelled from the spec: `stats.norm.cdf t`, the probability that a
standard normal random variable is at most `t`; cell 5 evaluates it at `z`. -/
noncomputable def normCdf (t : ℝ) : ℝ := ∫ x in Iic t, normPdf x

/-- Cell 7: `pval = 1 - stats.norm.cdf(z)`. -/
noncomputable def pval : ℝ := 1 - normCdf z

/-- Cell 7's right-tailed p-value formula `1 - stats.norm.cdf(t)` as a
function of an arbitrary z-score `t`. -/
noncomputable def pvalAt (t : ℝ) : ℝ := 1 - normCdf t

lemma sqrt_two_pi_pos : 0 < Real.sqrt (2 * π) :=
  Real.sqrt_pos.mpr (by positivity)

lemma normPdf_pos (x : ℝ) : 0 < normPdf x :=
  mul_pos (inv_pos.mpr sqrt_two_pi_pos) (Real.exp_pos _)

lemma normPdf_even (x : ℝ) : normPdf (-x) = normPdf x := by
  unfold normPdf
  rw [neg_pow]
  norm_num

lemma normPdf_eq_gauss :
    normPdf = fun x => (Real.sqrt (2 * π))⁻¹ * Real.exp (-(1 / 2) * x ^ 2) := by
  funext x
  unfold normPdf
  rw [show -x ^ 2 / 2 = -(1 / 2) * x ^ 2 by ring]

lemma integrable_normPdf : Integrable normPdf := by
  rw [normPdf_eq_gauss]
  exact (integrable_exp_neg_mul_sq (by norm_num : (0:ℝ) < 1 / 2)).const_mul _

lemma integral_normPdf : ∫ x, normPdf x = 1 := by
  rw [normPdf_eq_gauss, integral_mul_left, integral_gaussian,
    show π / (1 / 2 : ℝ) = 2 * π by ring]
  exact inv_mul_cancel₀ (ne_of_gt sqrt_two_pi_pos)

lemma normPdf_nonneg_ae (s : Set ℝ) :
    0 ≤ᵐ[volume.restrict s] fun x => normPdf x :=
  ae_of_all _ fun x => (normPdf_pos x).le

lemma normCdf_mono_le {a b : ℝ} (h : a ≤ b) : normCdf a ≤ normCdf b :=
  setIntegral_mono_set integrable_normPdf.integrableOn (normPdf_nonneg_ae _)
    ((Iic_subset_Iic.mpr h).eventuallyLE)

/-- The CDF and the complementary upper-tail integral add to the total mass. -/
lemma normCdf_add_upper (t : ℝ) :
    normCdf t + ∫ x in Ioi t, normPdf x = 1 := by
  have h := integral_add_compl (measurableSet_Iic (a := t)) integrable_normPdf
  rw [compl_Iic] at h
  rw [show normCdf t = ∫ x in Iic t, normPdf x from rfl, h, integral_normPdf]

lemma normCdf_eq_upper (t : ℝ) : normCdf t = ∫ x in Ioi (-t), normPdf x := by
  calc normCdf t = ∫ x in Iic t, normPdf (-x) :=
        setIntegral_congr_fun measurableSet_Iic fun x _ => (normPdf_even x).symm
    _ = ∫ x in Ioi (-t), normPdf x := integral_comp_neg_Iic t normPdf

lemma normCdf_neg_eq (t : ℝ) : normCdf (-t) = 1 - normCdf t := by
  have h1 := normCdf_add_upper (-t)
  have h2 := normCdf_eq_upper t
  linarith

lemma normCdf_zero : normCdf 0 = 1 / 2 := by
  have h := normCdf_neg_eq 0
  rw [neg_zero] at h
  linarith

lemma intervalIntegral_normPdf_pos {a b : ℝ} (h : a < b) :
    0 < ∫ x in a..b, normPdf x :=
  intervalIntegral.intervalIntegral_pos_of_pos_on integrable_normPdf.intervalIntegrable
    (fun x _ => normPdf_pos x) h

lemma setIntegral_normPdf_Ioc_le_Iic (a t : ℝ) :
    ∫ x in Ioc a t, normPdf x ≤ normCdf t :=
  setIntegral_mono_set integrable_normPdf.integrableOn (normPdf_nonneg_ae _)
    (Ioc_subset_Iic_self.eventuallyLE)

lemma normCdf_pos (t : ℝ) : 0 < normCdf t := by
  have h1 : 0 < ∫ x in (t - 1)..t, normPdf x :=
    intervalIntegral_normPdf_pos (by linarith)
  rw [intervalIntegral.integral_of_le (by linarith : t - 1 ≤ t)] at h1
  exact lt_of_lt_of_le h1 (setIntegral_normPdf_Ioc_le_Iic _ _)

lemma normCdf_lt_one (t : ℝ) : normCdf t < 1 := by
  have h1 : 0 < ∫ x in t..(t + 1), normPdf x :=
    intervalIntegral_normPdf_pos (by linarith)
  rw [intervalIntegral.integral_of_le (by linarith : t ≤ t + 1)] at h1
  have h2 : ∫ x in Ioc t (t + 1), normPdf x ≤ ∫ x in Ioi t, normPdf x :=
    setIntegral_mono_set integrable_normPdf.integrableOn (normPdf_nonneg_ae _)
      (Ioc_subset_Ioi_self.eventuallyLE)
  have h3 := normCdf_add_upper t
  linarith

lemma sqrt_ten_bounds :
    (3.1622776601683793319 : ℝ) < Real.sqrt 10 ∧
      Real.sqrt 10 < 3.1622776601683793320 := by
  constructor
  · exact (Real.lt_sqrt (by norm_num)).mpr (by norm_num)
  · exact (Real.sqrt_lt' (by norm_num)).mpr (by norm_num)

lemma z_eq_sqrt_ten : z = 3 * Real.sqrt 10 / 8 := by
  unfold z x_bar mu sigma n
  rw [show (40 : ℝ) = 2 ^ 2 * 10 by norm_num,
    Real.sqrt_mul (by norm_num : (0:ℝ) ≤ 2 ^ 2),
    Real.sqrt_sq (by norm_num : (0:ℝ) ≤ 2), div_div_eq_mul_div]
  ring

lemma z_sq : z ^ 2 = 45 / 32 := by
  rw [z_eq_sqrt_ten, div_pow, mul_pow,
    Real.sq_sqrt (by norm_num : (0:ℝ) ≤ 10)]
  norm_num

lemma z_bounds :
    (1.1858541225631422494 : ℝ) < z ∧ z < 1.1858541225631422495 := by
  obtain ⟨h1, h2⟩ := sqrt_ten_bounds
  rw [z_eq_sqrt_ten]
  constructor
  · linarith
  · linarith

lemma z_pos : 0 < z := by
  have h := z_bounds.1
  linarith

lemma sqrt_two_pi_bounds :
    (2.5066282746310005024 : ℝ) < Real.sqrt (2 * π) ∧
      Real.sqrt (2 * π) < 2.5066282746310005026 := by
  have h1 := Real.pi_gt_d20
  have h2 := Real.pi_lt_d20
  constructor
  · apply (Real.lt_sqrt (by norm_num)).mpr
    have h3 : (2.5066282746310005024 : ℝ) ^ 2 < 2 * 3.14159265358979323846 := by
      norm_num
    linarith
  · apply (Real.sqrt_lt' (by norm_num)).mpr
    have h3 : 2 * (3.14159265358979323847 : ℝ) < 2.5066282746310005026 ^ 2 := by
      norm_num
    linarith

/-- Degree-17 Taylor truncation of `exp` evaluated at `-x²/2`, used to bound
the Gaussian integral. -/
noncomputable def expPoly (x : ℝ) : ℝ :=
  ∑ m ∈ Finset.range 18, (-x ^ 2 / 2) ^ m / Nat.factorial m

/-- The exact value of the term-by-term integral of `expPoly` over `[0, z]`,
divided by `z`: a rational constant. -/
noncomputable def seriesS : ℝ :=
  ∑ m ∈ Finset.range 18, (-45 / 64 : ℝ) ^ m / ((2 * m + 1) * Nat.factorial m)

lemma seriesS_eq :
    seriesS = 483644584642334337397314220708486674536992328983 /
      598718096997527593853699725250619232730289799168 := by
  unfold seriesS
  simp only [Finset.sum_range_succ, Finset.sum_range_zero]
  norm_num [Nat.factorial]

lemma exp_poly_bound {x : ℝ} (hx0 : 0 < x) (hxz : x ≤ z) :
    |Real.exp (-x ^ 2 / 2) - expPoly x| ≤ 3e-19 := by
  have hz2 := z_sq
  have hx2 : x ^ 2 ≤ 45 / 32 := by nlinarith
  have habs : |(-x ^ 2 / 2 : ℝ)| = x ^ 2 / 2 := by
    rw [abs_of_nonpos (by nlinarith : (-x ^ 2 / 2 : ℝ) ≤ 0)]
    ring
  have hu : |(-x ^ 2 / 2 : ℝ)| ≤ 1 := by
    rw [habs]
    linarith
  unfold expPoly
  refine le_trans (Real.exp_bound hu (by norm_num)) ?_
  rw [habs]
  refine le_trans (mul_le_mul_of_nonneg_right
    (pow_le_pow_left₀ (by positivity) (by linarith : x ^ 2 / 2 ≤ 45 / 64) 18)
    (by positivity)) ?_
  norm_num [Nat.factorial]

lemma continuous_expPoly : Continuous expPoly := by
  unfold expPoly
  exact continuous_finset_sum _ fun m _ =>
    (((continuous_pow 2).neg.div_const 2).pow m).div_const _

lemma integral_expPoly : ∫ x in (0:ℝ)..z, expPoly x = z * seriesS := by
  have hfun : ∀ y : ℝ, expPoly y =
      ∑ m ∈ Finset.range 18, ((-1 / 2 : ℝ) ^ m / Nat.factorial m) * y ^ (2 * m) := by
    intro y
    unfold expPoly
    refine Finset.sum_congr rfl fun m _ => ?_
    rw [show (-y ^ 2 / 2 : ℝ) = -1 / 2 * y ^ 2 by ring, mul_pow, ← pow_mul]
    ring
  simp only [hfun]
  rw [intervalIntegral.integral_finset_sum fun m _ =>
    (((continuous_const.mul (continuous_pow (2 * m)))).intervalIntegrable _ _)]
  simp only [intervalIntegral.integral_const_mul, integral_pow]
  unfold seriesS
  rw [Finset.mul_sum]
  refine Finset.sum_congr rfl fun m _ => ?_
  have hfac : (Nat.factorial m : ℝ) ≠ 0 :=
    Nat.cast_ne_zero.mpr (Nat.factorial_ne_zero m)
  have h2m : (2 * (m : ℝ) + 1) ≠ 0 := by positivity
  have hzp : z ^ (2 * m + 1) = (45 / 32 : ℝ) ^ m * z := by
    rw [pow_succ, pow_mul, z_sq]
  have hp : ((-1 / 2 : ℝ)) ^ m * (45 / 32 : ℝ) ^ m = (-45 / 64 : ℝ) ^ m := by
    rw [← mul_pow]
    norm_num
  rw [zero_pow (by omega : 2 * m + 1 ≠ 0), sub_zero, hzp, ← hp]
  push_cast
  simp only [div_eq_mul_inv, mul_inv]
  ring

lemma intervalIntegrable_expNegSq :
    IntervalIntegrable (fun x : ℝ => Real.exp (-x ^ 2 / 2)) volume 0 z :=
  (Real.continuous_exp.comp ((continuous_pow 2).neg.div_const 2)).intervalIntegrable _ _

lemma integral_exp_approx :
    |(∫ x in (0:ℝ)..z, Real.exp (-x ^ 2 / 2)) - z * seriesS| ≤ 3e-19 * z := by
  rw [← integral_expPoly, ← intervalIntegral.integral_sub intervalIntegrable_expNegSq
    (continuous_expPoly.intervalIntegrable _ _)]
  have hb : ∀ x ∈ Ι (0:ℝ) z, ‖Real.exp (-x ^ 2 / 2) - expPoly x‖ ≤ 3e-19 := by
    intro x hx
    rw [uIoc_of_le z_pos.le] at hx
    rw [Real.norm_eq_abs]
    exact exp_poly_bound hx.1 hx.2
  have h := intervalIntegral.norm_integral_le_of_norm_le_const hb
  rw [Real.norm_eq_abs, sub_zero, abs_of_pos z_pos] at h
  simpa using h

/-- For a nonnegative argument, the CDF splits as one half plus a Gaussian
integral from zero. -/
lemma normCdf_eq_half_add {t : ℝ} (ht : 0 ≤ t) :
    normCdf t = 1 / 2 +
      (Real.sqrt (2 * π))⁻¹ * ∫ x in (0:ℝ)..t, Real.exp (-x ^ 2 / 2) := by
  have hsplit : normCdf t = normCdf 0 + ∫ x in Ioc 0 t, normPdf x := by
    rw [show normCdf t = ∫ x in Iic t, normPdf x from rfl,
      ← Iic_union_Ioc_eq_Iic ht,
      setIntegral_union (Iic_disjoint_Ioc le_rfl) measurableSet_Ioc
        integrable_normPdf.integrableOn integrable_normPdf.integrableOn]
    rfl
  rw [hsplit, normCdf_zero, ← intervalIntegral.integral_of_le ht,
    ← intervalIntegral.integral_const_mul]
  simp only [normPdf]

lemma inv_sqrt_two_pi_bounds :
    (2.5066282746310005026 : ℝ)⁻¹ < (Real.sqrt (2 * π))⁻¹ ∧
      (Real.sqrt (2 * π))⁻¹ < (2.5066282746310005024 : ℝ)⁻¹ := by
  obtain ⟨h1, h2⟩ := sqrt_two_pi_bounds
  constructor
  · exact (inv_lt_inv₀ (by norm_num) sqrt_two_pi_pos).mpr h2
  · exact (inv_lt_inv₀ sqrt_two_pi_pos (by norm_num)).mpr h1

lemma seriesS_bounds :
    (0.8078001768574093 : ℝ) < seriesS ∧ seriesS < 0.8078001768574094 := by
  rw [seriesS_eq]
  norm_num

lemma normCdf_z_interval :
    (0.8821600432854812 : ℝ) < normCdf z ∧
      normCdf z < 0.8821600432854813 := by
  obtain ⟨hz1, hz2⟩ := z_bounds
  obtain ⟨ha1, ha2⟩ := inv_sqrt_two_pi_bounds
  obtain ⟨hS1, hS2⟩ := seriesS_bounds
  have hcdf := normCdf_eq_half_add z_pos.le
  have habs := abs_le.mp integral_exp_approx
  set I : ℝ := ∫ x in (0:ℝ)..z, Real.exp (-x ^ 2 / 2)
  set a : ℝ := (Real.sqrt (2 * π))⁻¹
  have haz : 0 ≤ a := le_of_lt (lt_trans (by norm_num) ha1)
  have hSpos : (0:ℝ) ≤ seriesS := le_of_lt (lt_trans (by norm_num) hS1)
  have hzS_u : z * seriesS ≤ 1.1858541225631422495 * 0.8078001768574094 :=
    mul_le_mul hz2.le hS2.le hSpos (by norm_num)
  have hzS_l : (1.1858541225631422494 : ℝ) * 0.8078001768574093 ≤ z * seriesS :=
    mul_le_mul hz1.le hS1.le (by norm_num) z_pos.le
  have hescale : 3e-19 * z ≤ 3e-19 * 1.1858541225631422495 := by linarith
  have hIu : I ≤ 1.1858541225631422495 * 0.8078001768574094 +
      3e-19 * 1.1858541225631422495 := by
    linarith [habs.2]
  have hIl : (1.1858541225631422494 : ℝ) * 0.8078001768574093 -
      3e-19 * 1.1858541225631422495 ≤ I := by
    linarith [habs.1]
  have hIpos : 0 < I := lt_of_lt_of_le (by norm_num) hIl
  have hAu : a * I ≤ (2.5066282746310005024 : ℝ)⁻¹ *
      (1.1858541225631422495 * 0.8078001768574094 +
        3e-19 * 1.1858541225631422495) :=
    mul_le_mul ha2.le hIu hIpos.le (by norm_num)
  have hAl : (2.5066282746310005026 : ℝ)⁻¹ *
      ((1.1858541225631422494 : ℝ) * 0.8078001768574093 -
        3e-19 * 1.1858541225631422495) ≤ a * I :=
    mul_le_mul ha1.le hIl (by norm_num) haz
  have hfin1 : (1:ℝ)/2 + (2.5066282746310005024 : ℝ)⁻¹ *
      (1.1858541225631422495 * 0.8078001768574094 +
        3e-19 * 1.1858541225631422495) < 0.8821600432854813 := by
    norm_num
  have hfin2 : (0.8821600432854812 : ℝ) <
      1/2 + (2.5066282746310005026 : ℝ)⁻¹ *
      ((1.1858541225631422494 : ℝ) * 0.8078001768574093 -
        3e-19 * 1.1858541225631422495) := by
    norm_num
  constructor
  · linarith
  · linarith

lemma normCdf_z_approx : |normCdf z - 0.8821600432854813| < 1e-15 := by
  obtain ⟨h1, h2⟩ := normCdf_z_interval
  rw [abs_lt]
  constructor
  · linarith
  · linarith

lemma pval_approx : |pval - 0.11783995671451875| < 1e-15 := by
  obtain ⟨h1, h2⟩ := normCdf_z_interval
  rw [show pval = 1 - normCdf z from rfl, abs_lt]
  constructor
  · linarith
  · linarith

/-- Cell 3: the red shaded region is `plt.fill_between` over
`np.arange(-4, 1.19, 0.01)`; its upper limit is the hard-coded `1.19`. -/
def areaBelowStop : ℝ := 1.19

/-- Cell 3: the blue shaded region is `plt.fill_between` over
`np.arange(1.19, 4, 0.01)`; its lower limit is the hard-coded `1.19`. -/
def areaAboveStart : ℝ := 1.19

lemma boundary_ne_z : (1.19 : ℝ) ≠ z := by
  intro h
  have hz2 := z_sq
  rw [← h] at hz2
  norm_num at hz2

/-- Claim C1: the z-statistic is computed as
`(sample_mean - population_mean) / (population_std / sqrt(sample_size))`, and
on the worked example inputs `x̄=103, μ=100, σ=16, n=40` its value agrees with
`1.1858541225631423` to within `1e-15`. -/
theorem claim_C1_z_formula_and_value :
    z = (x_bar - mu) / (sigma / Real.sqrt n) ∧
      |z - 1.1858541225631423| < 1e-15 := by
  refine ⟨rfl, ?_⟩
  obtain ⟨h1, h2⟩ := z_bounds
  rw [abs_lt]
  constructor
  · linarith
  · linarith

/-- Claim C2: the standard normal cumulative probability at the computed `z`
agrees with `0.8821600432854813` to within `1e-15`, and the right-tailed
p-value is `1 - Φ(z)` and agrees with `0.11783995671451875` to within
`1e-15`. -/
theorem claim_C2_cdf_and_pval_values :
    |normCdf z - 0.8821600432854813| < 1e-15 ∧
      pval = 1 - normCdf z ∧ |pval - 0.11783995671451875| < 1e-15 :=
  ⟨normCdf_z_approx, rfl, pval_approx⟩

/-- Claim C3: with `σ = 0` or `n = 0` the z-statistic computation raises an
error (Python's `ZeroDivisionError`) instead of returning a numeric result. -/
theorem claim_C3_zero_inputs_error (xb m sg nn : ℝ) (h : sg = 0 ∨ nn = 0) :
    ∃ e, zEval xb m sg nn = Except.error e := by
  rcases h with hs | hn
  · exact zEval_error (Or.inl hs)
  · exact zEval_error (Or.inr (le_of_eq hn))

/-- Witness for claim C3 at `σ = 0` with the remaining worked-example
inputs. -/
theorem claim_C3_witness :
    ((0:ℝ) = 0 ∨ (40:ℝ) = 0) ∧ ∃ e, zEval 103 100 0 40 = Except.error e :=
  ⟨Or.inl rfl, claim_C3_zero_inputs_error 103 100 0 40 (Or.inl rfl)⟩

/-- Counterexample to claim C4: at the strictly negative `σ = -16` (with the
other worked-example inputs) the evaluator does not fail; it returns a
numeric z. -/
theorem claim_C4_counterexample :
    (-16 : ℝ) < 0 ∧
      zEval 103 100 (-16) 40 =
        Except.ok ((103 - (100:ℝ)) / (-16 / Real.sqrt 40)) :=
  ⟨by norm_num, zEval_ok (by norm_num) (by norm_num)⟩

/-- Claim C4 (amended): the evaluator fails for every input with `σ = 0` or
`n ≤ 0`; for strictly negative `σ` with positive `n` it instead returns a
numeric result (see the counterexample). -/
theorem claim_C4_amended_error_domain (xb m sg nn : ℝ) (h : sg = 0 ∨ nn ≤ 0) :
    ∃ e, zEval xb m sg nn = Except.error e :=
  zEval_error h

/-- Witness for the amended claim C4 at `n = 0`. -/
theorem claim_C4_witness :
    ((16:ℝ) = 0 ∨ (0:ℝ) ≤ 0) ∧ ∃ e, zEval 103 100 16 0 = Except.error e :=
  ⟨Or.inr le_rfl, claim_C4_amended_error_domain 103 100 16 0 (Or.inr le_rfl)⟩

/-- Counterexample to claim C5: both `fill_between` limits are the hard-coded
`1.19`, which is not the computed z-statistic. -/
theorem claim_C5_counterexample :
    areaBelowStop = 1.19 ∧ areaAboveStart = 1.19 ∧ areaAboveStart ≠ z := by
  refine ⟨rfl, rfl, ?_⟩
  unfold areaAboveStart
  exact boundary_ne_z

/-- Claim C5 (amended): the two shaded regions meet at the hard-coded
constant `1.19` — the computed z rounded to two decimals (within `0.005` of
it) — not at the computed z itself. -/
theorem claim_C5_amended_boundary :
    areaBelowStop = 1.19 ∧ areaAboveStart = 1.19 ∧
      |areaAboveStart - z| < 0.005 ∧ areaAboveStart ≠ z := by
  obtain ⟨h1, h2⟩ := z_bounds
  refine ⟨rfl, rfl, ?_, ?_⟩
  · unfold areaAboveStart
    rw [abs_lt]
    constructor
    · linarith
    · linarith
  · unfold areaAboveStart
    exact boundary_ne_z

/-- Claim C6: the modelled standard normal CDF is symmetric,
`Φ(-t) = 1 - Φ(t)` for every real `t`. -/
theorem claim_C6_cdf_symmetry (t : ℝ) : normCdf (-t) = 1 - normCdf t :=
  normCdf_neg_eq t

/-- Witness for claim C6 at `t = 1`. -/
theorem claim_C6_witness : normCdf (-1) = 1 - normCdf 1 :=
  claim_C6_cdf_symmetry 1

/-- Claim C7: the modelled standard normal CDF is monotonically nondecreasing:
`a < b` implies `Φ(a) ≤ Φ(b)`. -/
theorem claim_C7_cdf_monotone (a b : ℝ) (h : a < b) : normCdf a ≤ normCdf b :=
  normCdf_mono_le h.le

/-- Witness for claim C7 at `a = 0`, `b = 1`. -/
theorem claim_C7_witness : (0:ℝ) < 1 ∧ normCdf 0 ≤ normCdf 1 :=
  ⟨by norm_num, claim_C7_cdf_monotone 0 1 (by norm_num)⟩

/-- Claim C8: the modelled standard normal CDF satisfies `Φ(0) = 0.5` and all
its values lie in the open interval `(0, 1)`. -/
theorem claim_C8_half_and_range (t : ℝ) :
    normCdf 0 = 0.5 ∧ 0 < normCdf t ∧ normCdf t < 1 :=
  ⟨by rw [normCdf_zero]; norm_num, normCdf_pos t, normCdf_lt_one t⟩

/-- Witness for claim C8 at `t = 2`. -/
theorem claim_C8_witness : normCdf 0 = 0.5 ∧ 0 < normCdf 2 ∧ normCdf 2 < 1 :=
  claim_C8_half_and_range 2

/-- Claim C9: the right-tailed p-value `1 - Φ(t)` lies in `[0, 1]` for every
real `t`. -/
theorem claim_C9_pval_range (t : ℝ) : 0 ≤ pvalAt t ∧ pvalAt t ≤ 1 := by
  have h1 := normCdf_pos t
  have h2 := normCdf_lt_one t
  unfold pvalAt
  constructor
  · linarith
  · linarith

/-- Witness for claim C9 at `t = 3`. -/
theorem claim_C9_witness : 0 ≤ pvalAt 3 ∧ pvalAt 3 ≤ 1 :=
  claim_C9_pval_range 3

/-- Claim C10: on the notebook's hard-coded inputs every sub-expression of
the z computation is in domain — the square-root argument `n` is nonnegative
and both divisors (`sqrt n` and `sigma / sqrt n`) are nonzero — so the Python
evaluation cannot raise and returns the real number `z`. -/
theorem claim_C10_domain_safe :
    (0:ℝ) ≤ n ∧ Real.sqrt n ≠ 0 ∧ sigma / Real.sqrt n ≠ 0 ∧
      zEval x_bar mu sigma n = Except.ok z := by
  have hn : (0:ℝ) < n := by
    unfold n
    norm_num
  have hsq : Real.sqrt n ≠ 0 := ne_of_gt (Real.sqrt_pos.mpr hn)
  have hsig : sigma ≠ 0 := by
    unfold sigma
    norm_num
  exact ⟨hn.le, hsq, div_ne_zero hsig hsq, zEval_ok hn hsig⟩

end OneSampleZTest
